import Mathlib

/-!
# Verification of the Global-ID encode/decode core

Shallow embedding of `src/lib/global-id.ts` (the current revision: CBOR
`[formatted, version]` envelope, no compression layer).

Modelling conventions, stated once:

* A JavaScript string is modelled as a `List Char` (`Str`).  JavaScript
  truthiness of strings (`""` is falsy) is modelled by `List.isEmpty`.
* `Record<string, V>` and `Map<string, V>` are modelled as association
  lists with first-match lookup and replace-or-append update; prototype
  chain artefacts of plain JS objects are not modelled.
* A thrown `Error` is modelled as `Except.error` with an error kind
  (`Err`) naming the throw site, following the spec's error taxonomy:
  the generic `TypeError` raised by destructuring a non-iterable value
  and the errors thrown by `cbor-x` on bad bytes are both corruption
  failures of the payload and are modelled as `Err.malformedPayload`.
  Since registration methods throw *before* any mutation, modelling them
  as `Except` over immutable states is exact: a failing call returns the
  error and the caller keeps the unchanged registry.
* `cbor-x`'s `encode`/`decode` are modelled at the byte level for the
  fragment of CBOR its encoder emits for the values of this model:
  unsigned integers (major 0), definite-length UTF-8 text strings
  (major 3) and definite-length arrays (major 4), with minimal-length
  arguments.  On that fragment the model agrees with `cbor-x`
  byte-for-byte: such bytes decode to exactly these values, a truncated
  definite-length item is rejected (`cbor-x` throws "Unexpected end of
  buffer"), and leftover bytes are rejected (`cbor-x` throws after a
  checked read).  Outside the fragment (byte strings, indefinite
  lengths, maps, tags, floats, invalid UTF-8) `cbor-x` decodes more
  than this model, so every theorem below evaluates `decode` only on
  payloads inside the fragment — encoder output, and one truncated
  text string that model and library reject alike.
* Node's `Buffer.from(s, 'base64')` never throws: it is the forgiving
  base64 decoder (non-alphabet characters including `=` are skipped,
  url-safe `-`/`_` accepted, a final partial group of 2 or 3 sextets
  yields its complete bytes, a lone sextet is dropped).  It is modelled
  as the total function `base64DecodeChars`.
-/

namespace GlobalIdTs

/-- A JavaScript string, as a list of characters. -/
abbrev Str := List Char

/-- JS truthiness of a possibly-absent string (`undefined` and `""` are
falsy) — this is what `if (!x)` tests on `string | undefined`. -/
def truthyStrOpt : Option Str → Bool
  | none => false
  | some s => !s.isEmpty

/-- The JavaScript values a `GlobalId` payload can hold in this model;
enough to express every truthiness class (`Encoder.encode` tests
`!id.getValue()`). -/
inductive JSVal where
  | undef
  | null
  | bool (b : Bool)
  | num (n : Int)
  | nan
  | str (s : Str)
deriving DecidableEq

/-- JS truthiness of a value: `undefined`, `null`, `false`, `0`, `NaN`
and `""` are falsy, everything else is truthy. -/
def JSVal.isTruthy : JSVal → Bool
  | .undef => false
  | .null => false
  | .bool b => b
  | .num n => n != 0
  | .nan => false
  | .str s => !s.isEmpty

/-- The values `cbor-x`'s `decode` can hand back in this model (the
fragment the envelope format and the claims exercise). -/
inductive CborValue where
  | num (n : Nat)
  | str (s : Str)
  | arr (l : List CborValue)

/-- `IParser<T>` of the source: `format(value): string` and
`parse(value: string): T`.  `parse` receives whatever the decoder
destructured (possibly `undefined`, modelled as `none`) and may throw
(modelled as returning `none`). -/
structure IParser where
  format : JSVal → Str
  parse : Option CborValue → Option JSVal

/-- The immutable `(type, version, value)` triple of `global-id.ts`. -/
structure GlobalId where
  type : Str
  version : Str
  value : JSVal
deriving DecidableEq

/-- Error kinds of the spec's taxonomy, one per throw site of the source
(plus `parseError` for an exception escaping a caller-supplied
`parser.parse`). -/
inductive Err where
  | duplicateRegistration
  | unknownType
  | unknownVersion
  | unregisteredType
  | malformedPayload
  | nullValue
  | parseError
deriving DecidableEq

/-- First-match lookup in an association list (JS `Record`/`Map` read). -/
def assocGet {β : Type} (m : List (Str × β)) (k : Str) : Option β :=
  match m with
  | [] => none
  | (k', v) :: rest => if k' = k then some v else assocGet rest k

/-- Replace-or-append update of an association list (JS `Record`/`Map`
assignment). -/
def assocSet {β : Type} (m : List (Str × β)) (k : Str) (v : β) : List (Str × β) :=
  match m with
  | [] => [(k, v)]
  | (k', v') :: rest => if k' = k then (k, v) :: rest else (k', v') :: assocSet rest k v

/-- `TypeRegistry`: `typeMap` (type → prefix) and `prefixMap`
(prefix → type). -/
structure TypeRegistry where
  typeMap : List (Str × Str)
  prefixMap : List (Str × Str)
deriving DecidableEq

/-- `TypeRegistry.getPrefix`. -/
def TypeRegistry.getPrefix (tr : TypeRegistry) (t : Str) : Option Str :=
  assocGet tr.typeMap t

/-- `TypeRegistry.getType`. -/
def TypeRegistry.getType (tr : TypeRegistry) (p : Str) : Option Str :=
  assocGet tr.prefixMap p

/-- `TypeRegistry.registerType`: the guard is JS truthiness of the two
lookups (`if (this.typeMap[type] || this.prefixMap[prefix])`), so an
entry whose *stored value* is the empty string does not trip it.  The
throw happens before either assignment. -/
def registerType (tr : TypeRegistry) (t p : Str) : Except Err TypeRegistry :=
  if truthyStrOpt (assocGet tr.typeMap t) || truthyStrOpt (assocGet tr.prefixMap p) then
    .error .duplicateRegistration
  else
    .ok ⟨assocSet tr.typeMap t p, assocSet tr.prefixMap p t⟩

/-- `ParserRegistry`: `parsers: Record<string, Map<string, IParser>>`.
The `typeRegistry` constructor argument is passed explicitly to
`registerParser` instead of being stored. -/
structure ParserRegistry where
  parsers : List (Str × List (Str × IParser))

/-- `ParserRegistry.registerParser`: requires `typeRegistry.getType(type)`
to be truthy (so `type` here lives in the *prefix* key space), then
`this.parsers[type].set(version, parser)` — a plain `Map.set`, which
overwrites silently. -/
def registerParser (pr : ParserRegistry) (tr : TypeRegistry) (t v : Str)
    (q : IParser) : Except Err ParserRegistry :=
  if !truthyStrOpt (tr.getType t) then
    .error .unknownType
  else
    .ok ⟨assocSet pr.parsers t (assocSet ((assocGet pr.parsers t).getD []) v q)⟩

/-- `ParserRegistry.getParser`: absent inner map (`!versionedParsers`,
and a `Map` object is always truthy, so this is a presence check) throws
"No parsers registered for type" (`unknownType`); a present map without
the version throws "No parser registered for … version" (`unknownVersion`). -/
def getParser (pr : ParserRegistry) (t v : Str) : Except Err IParser :=
  match assocGet pr.parsers t with
  | none => .error .unknownType
  | some m =>
    match assocGet m v with
    | none => .error .unknownVersion
    | some q => .ok q

/-! ## UTF-8 bytes of a string

`cbor-x` serializes a JS string as the UTF-8 bytes of its code points.
The decoder below is strict (it rejects stray continuation bytes,
overlong forms, surrogates and out-of-range code points), whereas Node
and `cbor-x` decode invalid UTF-8 forgivingly with replacement
characters; the two agree on valid encoder output, which is the only
input any theorem of this file decodes. -/

/-- UTF-8 encoding of one scalar value. -/
def utf8EncodeChar (c : Char) : List Nat :=
  let n := c.toNat
  if n < 128 then [n]
  else if n < 2048 then [192 + n / 64, 128 + n % 64]
  else if n < 65536 then [224 + n / 4096, 128 + n / 64 % 64, 128 + n % 64]
  else [240 + n / 262144, 128 + n / 4096 % 64, 128 + n / 64 % 64, 128 + n % 64]

/-- UTF-8 encoding of a string. -/
def utf8Encode : Str → List Nat
  | [] => []
  | c :: cs => utf8EncodeChar c ++ utf8Encode cs

/-- UTF-8 decoding of one scalar value off the front of a byte list:
the code point and the remaining bytes.  Rejects truncated sequences,
bad continuation bytes and overlong/out-of-range forms. -/
def utf8DecodeOne : List Nat → Option (Nat × List Nat)
  | [] => none
  | b0 :: rest =>
    if b0 < 128 then some (b0, rest)
    else if b0 < 192 then none
    else if b0 < 224 then
      let b1 := rest.getD 0 0
      if 1 ≤ rest.length ∧ 128 ≤ b1 ∧ b1 < 192 ∧ 128 ≤ (b0 - 192) * 64 + (b1 - 128) then
        some ((b0 - 192) * 64 + (b1 - 128), rest.drop 1)
      else none
    else if b0 < 240 then
      let b1 := rest.getD 0 0
      let b2 := rest.getD 1 0
      let n := (b0 - 224) * 4096 + (b1 - 128) * 64 + (b2 - 128)
      if 2 ≤ rest.length ∧ 128 ≤ b1 ∧ b1 < 192 ∧ 128 ≤ b2 ∧ b2 < 192 ∧ 2048 ≤ n then
        some (n, rest.drop 2)
      else none
    else if b0 < 248 then
      let b1 := rest.getD 0 0
      let b2 := rest.getD 1 0
      let b3 := rest.getD 2 0
      let n := (b0 - 240) * 262144 + (b1 - 128) * 4096 + (b2 - 128) * 64 + (b3 - 128)
      if 3 ≤ rest.length ∧ 128 ≤ b1 ∧ b1 < 192 ∧ 128 ≤ b2 ∧ b2 < 192 ∧
          128 ≤ b3 ∧ b3 < 192 ∧ 65536 ≤ n then
        some (n, rest.drop 3)
      else none
    else none

/-- Fueled UTF-8 decoding loop; one unit of fuel per decoded character
(`utf8DecodeOne` always consumes at least one byte, so the byte count is
enough fuel). -/
def utf8DecodeLoop : Nat → List Nat → Option Str
  | _, [] => some []
  | 0, _ :: _ => none
  | fuel + 1, b0 :: rest =>
    match utf8DecodeOne (b0 :: rest) with
    | none => none
    | some (n, rest') =>
      if n.isValidChar then
        (utf8DecodeLoop fuel rest').map (fun cs => Char.ofNat n :: cs)
      else none

/-- UTF-8 decoding of a byte sequence. -/
def utf8Decode (bytes : List Nat) : Option Str :=
  utf8DecodeLoop bytes.length bytes

/-! ## CBOR (the fragment `cbor-x` uses for the envelope)

Major type and argument in the first byte (`32 * major + info`), argument
extended to 1/2/4/8 following bytes for `info = 24/25/26/27`; the encoder
emits minimal-length arguments, as `cbor-x` does. -/

/-- Byte(s) announcing one CBOR item: major type and argument. -/
def cborHeader (major arg : Nat) : List Nat :=
  if arg < 24 then [32 * major + arg]
  else if arg < 256 then [32 * major + 24, arg]
  else if arg < 65536 then [32 * major + 25, arg / 256, arg % 256]
  else if arg < 4294967296 then
    [32 * major + 26, arg / 16777216 % 256, arg / 65536 % 256, arg / 256 % 256, arg % 256]
  else
    [32 * major + 27, arg / 72057594037927936 % 256, arg / 281474976710656 % 256,
      arg / 1099511627776 % 256, arg / 4294967296 % 256, arg / 16777216 % 256,
      arg / 65536 % 256, arg / 256 % 256, arg % 256]

/-- Read a header argument: `info < 24` is immediate, `24što27` take the
argument from the next 1/2/4/8 bytes; `28što31` (reserved/indefinite) are
not emitted by `cbor-x`'s encoder and are rejected. -/
def readArg (info : Nat) (bytes : List Nat) : Option (Nat × List Nat) :=
  if info < 24 then some (info, bytes)
  else if info = 24 then
    match bytes with
    | b1 :: r => some (b1, r)
    | [] => none
  else if info = 25 then
    match bytes with
    | b1 :: b2 :: r => some (b1 * 256 + b2, r)
    | _ => none
  else if info = 26 then
    match bytes with
    | b1 :: b2 :: b3 :: b4 :: r => some (((b1 * 256 + b2) * 256 + b3) * 256 + b4, r)
    | _ => none
  else if info = 27 then
    match bytes with
    | b1 :: b2 :: b3 :: b4 :: b5 :: b6 :: b7 :: b8 :: r =>
      some (((((((b1 * 256 + b2) * 256 + b3) * 256 + b4) * 256 + b5) * 256 + b6)
        * 256 + b7) * 256 + b8, r)
    | _ => none
  else none

mutual

/-- CBOR serialization of a value (what `cborEncode` of `cbor-x` emits
for the values this model covers). -/
def cborEncode : CborValue → List Nat
  | .num n => cborHeader 0 n
  | .str s => cborHeader 3 (utf8Encode s).length ++ utf8Encode s
  | .arr l => cborHeader 4 l.length ++ cborEncodeList l

/-- CBOR serialization of consecutive array elements. -/
def cborEncodeList : List CborValue → List Nat
  | [] => []
  | v :: vs => cborEncode v ++ cborEncodeList vs

end

mutual

/-- Fueled CBOR parser for one item: the item and the remaining bytes.
Every recursive call strictly decreases the fuel, and one unit of fuel
per parsed item suffices, so the byte count (plus one) is enough.
Covers majors 0/3/4 with definite lengths — the fragment the encoder
side emits, on which it matches `cbor-x` exactly; `cbor-x` itself also
decodes byte strings, indefinite lengths, maps, tags and floats, which
no theorem of this file feeds to `decode`. -/
def cborDecodeVal : Nat → List Nat → Option (CborValue × List Nat)
  | 0, _ => none
  | _ + 1, [] => none
  | fuel + 1, b :: rest =>
    match readArg (b % 32) rest with
    | none => none
    | some (arg, r) =>
      if b / 32 = 0 then some (.num arg, r)
      else if b / 32 = 3 then
        if arg ≤ r.length then
          match utf8Decode (r.take arg) with
          | none => none
          | some s => some (.str s, r.drop arg)
        else none
      else if b / 32 = 4 then
        match cborDecodeList fuel arg r with
        | none => none
        | some (l, r') => some (.arr l, r')
      else none

/-- Fueled CBOR parser for `n` consecutive array elements. -/
def cborDecodeList : Nat → Nat → List Nat → Option (List CborValue × List Nat)
  | _, 0, bytes => some ([], bytes)
  | 0, _ + 1, _ => none
  | fuel + 1, n + 1, bytes =>
    match cborDecodeVal fuel bytes with
    | none => none
    | some (v, r) =>
      match cborDecodeList fuel n r with
      | none => none
      | some (l, r') => some (v :: l, r')

end

/-- `cbor-x`'s `decode`: parse one value and require the whole buffer to
be consumed (`cbor-x` throws when bytes are left over). -/
def cborDecode (bytes : List Nat) : Option CborValue :=
  match cborDecodeVal (bytes.length + 1) bytes with
  | some (v, []) => some v
  | _ => none

/-! ## Base64 (Node `Buffer` semantics)

`toBase64` (Node path, `buffer.toString('base64')`) is standard base64
with `=` padding.  `Buffer.from(s, 'base64')` is Node's forgiving
decoder and never throws. -/

/-- The standard base64 alphabet. -/
def b64Table : List Char :=
  "ABCDEFGHIJKLMNOPQRSTUVWXYZabcdefghijklmnopqrstuvwxyz0123456789+/".data

/-- Character for a sextet. -/
def b64Char (n : Nat) : Char := b64Table.getD n 'A'

/-- `buffer.toString('base64')`: 3 bytes to 4 characters, trailing group
padded with `=`. -/
def base64Encode : List Nat → List Char
  | [] => []
  | [b1] => [b64Char (b1 / 4), b64Char (b1 % 4 * 16), '=', '=']
  | [b1, b2] => [b64Char (b1 / 4), b64Char (b1 % 4 * 16 + b2 / 16), b64Char (b2 % 16 * 4), '=']
  | b1 :: b2 :: b3 :: rest =>
    b64Char (b1 / 4) :: b64Char (b1 % 4 * 16 + b2 / 16) ::
      b64Char (b2 % 16 * 4 + b3 / 64) :: b64Char (b3 % 64) :: base64Encode rest

/-- Index of a character in a list. -/
def charIndex : List Char → Char → Option Nat
  | [], _ => none
  | c' :: rest, c => if c' = c then some 0 else (charIndex rest c).map (fun i => i + 1)

/-- Sextet value of a character; Node accepts the url-safe `-`/`_` as
62/63 too, and anything else (including `=`) decodes to nothing. -/
def sixbit (c : Char) : Option Nat :=
  if c = '-' then some 62
  else if c = '_' then some 63
  else charIndex b64Table c

/-- Reassemble bytes from sextets: full groups of 4, then a final group
of 2 or 3 sextets gives 1 or 2 bytes, a lone sextet is dropped. -/
def sixbitsToBytes : List Nat → List Nat
  | a :: b :: c :: d :: rest =>
    (a * 4 + b / 16) :: (b % 16 * 16 + c / 4) :: (c % 4 * 64 + d) :: sixbitsToBytes rest
  | [a, b] => [a * 4 + b / 16]
  | [a, b, c] => [a * 4 + b / 16, b % 16 * 16 + c / 4]
  | _ => []

/-- `Buffer.from(s, 'base64')`: forgiving decode (total). -/
def base64DecodeChars (s : List Char) : List Nat :=
  sixbitsToBytes (s.filterMap sixbit)

/-- The replace of every plus with a dash, one character. -/
def swapPlus (c : Char) : Char := if c = '+' then '-' else c

/-- The replace of every slash with an underscore, one character. -/
def swapSlash (c : Char) : Char := if c = '/' then '_' else c

/-- The replace of the trailing run of `=` with nothing. -/
def stripTrailingEq (s : List Char) : List Char :=
  (s.reverse.dropWhile (fun c => c == '=')).reverse

/-- The `Encoder`'s base64url sanitization: `+` to `-`, `/` to `_`,
strip trailing `=`. -/
def sanitize (s : List Char) : List Char :=
  stripTrailingEq ((s.map swapPlus).map swapSlash)

/-- The replace of every dash with a plus, one character. -/
def unswapDash (c : Char) : Char := if c = '-' then '+' else c

/-- The replace of every underscore with a slash, one character. -/
def unswapUnderscore (c : Char) : Char := if c = '_' then '/' else c

/-- The `Decoder`'s `while (length % 4) pad += '='` loop, as the closed
form appending `(4 - length % 4) % 4` pad characters. -/
def padEq (s : List Char) : List Char :=
  s ++ List.replicate ((4 - s.length % 4) % 4) '='

/-- The `Decoder`'s un-sanitization: `-` to `+`, `_` to `/`, re-pad. -/
def unsanitize (s : List Char) : List Char :=
  padEq ((s.map unswapDash).map unswapUnderscore)

/-! ## Encoder and Decoder -/

/-- `Decoder.splitByFirstOccurrence`: split at the first occurrence of
the separator; `(whole, none)` when the separator does not occur (the
source returns the one-element array `[input]`, whose destructuring
leaves the second component `undefined`). -/
def splitByFirstOccurrence : Str → Char → Str × Option Str
  | [], _ => ([], none)
  | c :: rest, sep =>
    if c = sep then ([], some rest)
    else (c :: (splitByFirstOccurrence rest sep).1, (splitByFirstOccurrence rest sep).2)

/-- JS array destructuring `const [data, version] = x` on the value
`cbor-x` returned: arrays yield their first two elements (`undefined`
past the end), strings are iterable and yield their first two characters
as one-character strings, and a number — the only non-iterable in this
model's value fragment — throws a `TypeError`.  (Real JS destructures
further iterables, such as the `Uint8Array` a CBOR byte string decodes
to; those lie outside the fragment the theorems evaluate `decode`
on.) -/
def destructure2 : CborValue → Option (Option CborValue × Option CborValue)
  | .arr l => some (l.head?, (l.drop 1).head?)
  | .str s => some ((s.head?).map (fun c => CborValue.str [c]),
      ((s.drop 1).head?).map (fun c => CborValue.str [c]))
  | .num _ => none

/-- `Encoder.encode`: resolve the prefix (truthiness test `!typePrefix`,
so an empty-string prefix also fails `UnregisteredType`), reject a falsy
value (`!id.getValue()`) with `NullValue`, resolve the parser keyed by
the *prefix*, format, build the `[formatted, version]` envelope,
CBOR-serialize, base64, sanitize, and prepend `prefix + "_"`. -/
def encode (pr : ParserRegistry) (tr : TypeRegistry) (id : GlobalId) : Except Err Str :=
  match tr.getPrefix id.type with
  | none => .error .unregisteredType
  | some p =>
    if p.isEmpty then .error .unregisteredType
    else if !id.value.isTruthy then .error .nullValue
    else
      match getParser pr p id.version with
      | .error e => .error e
      | .ok parser =>
        .ok (p ++ '_' :: sanitize (base64Encode (cborEncode
          (.arr [.str (parser.format id.value), .str id.version]))))

/-- Tail of `Decoder.decode` after the `[data, version]` envelope is in
hand: parser lookup keyed by `(prefix, version)` (a non-string or absent
`version` misses the string-keyed `Map`, so it gives `UnknownVersion`
when the prefix has a parser map and `UnknownType` otherwise),
`parser.parse(data)`, then the defensive `getType` truthiness
re-check (`!parsedType`). -/
def decodeResolve (pr : ParserRegistry) (tr : TypeRegistry) (pre : Str)
    (dataOpt verOpt : Option CborValue) : Except Err GlobalId :=
  match verOpt with
  | some (.str ver) =>
    (match getParser pr pre ver with
     | .error e => .error e
     | .ok parser =>
       match parser.parse dataOpt with
       | none => .error .parseError
       | some value =>
         match tr.getType pre with
         | none => .error .unregisteredType
         | some t =>
           if t.isEmpty then .error .unregisteredType
           else .ok ⟨t, ver, value⟩)
  | _ =>
    match assocGet pr.parsers pre with
    | none => .error .unknownType
    | some _ => .error .unknownVersion

/-- `Decoder.decode`: split at the first `_`; un-sanitize and pad the
payload; base64-decode (total, Node semantics); CBOR-decode (a `cbor-x`
throw is `malformedPayload`); destructure into `[data, version]` (a
`TypeError` on a non-iterable value is `malformedPayload`); then resolve
parser, parse and re-check the type via `decodeResolve`. -/
def decode (pr : ParserRegistry) (tr : TypeRegistry) (s : Str) : Except Err GlobalId :=
  match splitByFirstOccurrence s '_' with
  | (_, none) => .error .malformedPayload
  | (pre, some payload) =>
    match cborDecode (base64DecodeChars (unsanitize payload)) with
    | none => .error .malformedPayload
    | some v =>
      match destructure2 v with
      | none => .error .malformedPayload
      | some (dataOpt, verOpt) => decodeResolve pr tr pre dataOpt verOpt

/-- The wire string carrying a given CBOR envelope under a given
prefix: `prefix + "_" + sanitize(base64(cborEncode(envelope)))`.  For a
two-string envelope this is exactly what a successful `encode`
returns. -/
def envelopeWire (p : Str) (v : CborValue) : Str :=
  p ++ '_' :: sanitize (base64Encode (cborEncode v))

/-! ## Registry lemmas and reachable states -/

deriving instance DecidableEq for Except

/-- TypeRegistry states reachable from empty by successful `registerType`
calls with nonempty type and prefix arguments. -/
inductive NEReach : TypeRegistry → Prop where
  | init : NEReach ⟨[], []⟩
  | step {tr tr' : TypeRegistry} {t p : Str} : NEReach tr → t ≠ [] → p ≠ [] →
      registerType tr t p = .ok tr' → NEReach tr'

/-- Combined registry states reachable from empty by any successful
`registerType` / `registerParser` calls (empty-string names allowed). -/
inductive Reach : TypeRegistry → ParserRegistry → Prop where
  | init : Reach ⟨[], []⟩ ⟨[]⟩
  | regType {tr tr' : TypeRegistry} {pr : ParserRegistry} {t p : Str} :
      Reach tr pr → registerType tr t p = .ok tr' → Reach tr' pr
  | regParser {tr : TypeRegistry} {pr pr' : ParserRegistry} {t v : Str} {q : IParser} :
      Reach tr pr → registerParser pr tr t v q = .ok pr' → Reach tr pr'

/-! ## Concrete registries for witnesses and counterexamples -/

/-- A concrete string parser: `format` and `parse` are mutually inverse
on string payloads (the shape of the repository's example
`OrganizationLegacyIdentifierParserV1`, specialised to plain strings). -/
def idParser : IParser where
  format := fun v => match v with | .str s => s | _ => []
  parse := fun o => match o with | some (.str s) => some (.str s) | _ => none

/-- `TypeRegistry` holding `Organization ↦ org`. -/
def orgTr : TypeRegistry :=
  ⟨[("Organization".data, "org".data)], [("org".data, "Organization".data)]⟩

/-- `ParserRegistry` holding `(org, 1.0.0) ↦ idParser`. -/
def orgPr : ParserRegistry := ⟨[("org".data, [("1.0.0".data, idParser)])]⟩

/-! ## Claims -/

/-- State after `registerType("A", "")` (accepted: both lookups are
falsy on the empty registry). -/
def trBadA : TypeRegistry := ⟨[("A".data, [])], [([], "A".data)]⟩

/-- State `{A ↦ a}` reached by one nonempty registration. -/
def trA : TypeRegistry := ⟨[("A".data, "a".data)], [("a".data, "A".data)]⟩

/-- State after `registerType("", "p")`. -/
def trBadP : TypeRegistry := ⟨[([], "p".data)], [("p".data, [])]⟩

/-- State after `registerType("B", "")`. -/
def trBadB : TypeRegistry := ⟨[("B".data, [])], [([], "B".data)]⟩

/-- Encoding of `GlobalId("Organization", "1.0.0", "x")` under the
witness registries (falling back to `[]` on failure, which C8's witness
shows does not happen). -/
def orgEncoded : Str :=
  match encode orgPr orgTr ⟨"Organization".data, "1.0.0".data, .str "x".data⟩ with
  | .ok s => s
  | .error _ => []

/-- State after `registerType("C", "")`. -/
def trBadC : TypeRegistry := ⟨[("C".data, [])], [([], "C".data)]⟩

/-- A payload whose CBOR deserializes to a *three*-element envelope
`[formatted, version, extra]`, wrapped as an `org_…` string. -/
def env3 : CborValue := .arr [.str "x".data, .str "1.0.0".data, .num 7]

/-- The wire string carrying `env3` under the `org` prefix. -/
def env3Str : Str := "org".data ++ '_' :: sanitize (base64Encode (cborEncode env3))

/-- `T ↦ a_b`: a registered prefix containing the separator. -/
def usTr : TypeRegistry := ⟨[("T".data, "a_b".data)], [("a_b".data, "T".data)]⟩

/-- The parser map keyed by the underscore prefix. -/
def usPr : ParserRegistry := ⟨[("a_b".data, [("1".data, idParser)])]⟩

/-- The GlobalId whose round trip the underscore prefix breaks. -/
def usGid : GlobalId := ⟨"T".data, "1".data, .str "x".data⟩

/-- Its encoding (the fallback `[]` is not taken, as the counterexample
proves). -/
def usEncoded : Str :=
  match encode usPr usTr usGid with
  | .ok s => s
  | .error _ => []

/-! ## Lemmas and claim theorems -/

theorem char_toNat_lt (c : Char) : c.toNat < 1114112 := by
  show c.val.toNat < 1114112
  rcases c.valid with h | ⟨_, h⟩ <;> omega

theorem char_toNat_isValidChar (c : Char) : Nat.isValidChar c.toNat := c.valid

/-- Decoding one encoded scalar value off the front of a byte stream. -/
theorem utf8DecodeOne_encodeChar (c : Char) (r : List Nat) :
    utf8DecodeOne (utf8EncodeChar c ++ r) = some (c.toNat, r) := by
  have hlt := char_toNat_lt c
  unfold utf8EncodeChar
  by_cases h1 : c.toNat < 128
  · rw [if_pos h1]
    show utf8DecodeOne (c.toNat :: r) = _
    rw [utf8DecodeOne, if_pos h1]
  · rw [if_neg h1]
    by_cases h2 : c.toNat < 2048
    · rw [if_pos h2]
      show utf8DecodeOne ((192 + c.toNat / 64) :: (128 + c.toNat % 64) :: r) = _
      rw [utf8DecodeOne, if_neg (by omega), if_neg (by omega), if_pos (by omega)]
      simp only [List.getD, List.get?_eq_getElem?, List.length_cons, List.drop_succ_cons,
        List.drop_zero]
      rw [if_pos (by simp; omega)]
      simp
      omega
    · rw [if_neg h2]
      by_cases h3 : c.toNat < 65536
      · rw [if_pos h3]
        show utf8DecodeOne ((224 + c.toNat / 4096) ::
            (128 + c.toNat / 64 % 64) :: (128 + c.toNat % 64) :: r) = _
        rw [utf8DecodeOne, if_neg (by omega), if_neg (by omega), if_neg (by omega),
          if_pos (by omega)]
        simp only [List.getD, List.get?_eq_getElem?, List.length_cons, List.drop_succ_cons,
          List.drop_zero]
        rw [if_pos (by simp; omega)]
        simp
        omega
      · rw [if_neg h3]
        show utf8DecodeOne ((240 + c.toNat / 262144) :: (128 + c.toNat / 4096 % 64) ::
            (128 + c.toNat / 64 % 64) :: (128 + c.toNat % 64) :: r) = _
        rw [utf8DecodeOne, if_neg (by omega), if_neg (by omega), if_neg (by omega),
          if_neg (by omega), if_pos (by omega)]
        simp only [List.getD, List.get?_eq_getElem?, List.length_cons, List.drop_succ_cons,
          List.drop_zero]
        rw [if_pos (by simp; omega)]
        simp
        omega

theorem utf8EncodeChar_length_pos (c : Char) : 1 ≤ (utf8EncodeChar c).length := by
  simp only [utf8EncodeChar]
  split_ifs <;> simp

/-- The fueled loop decodes an encoded string off the front of a byte
stream, one unit of fuel per character. -/
theorem utf8DecodeLoop_encode (s : Str) (f : Nat) (r : List Nat) :
    utf8DecodeLoop (s.length + f) (utf8Encode s ++ r) =
      (utf8DecodeLoop f r).map (fun cs => s ++ cs) := by
  induction s generalizing f with
  | nil =>
    simp only [utf8Encode, List.nil_append, List.length_nil, Nat.zero_add]
    cases hr : utf8DecodeLoop f r <;> simp [hr]
  | cons c cs ih =>
    rw [utf8Encode, List.append_assoc]
    have hlen : (c :: cs).length + f = cs.length + f + 1 := by
      simp only [List.length_cons]
      omega
    rw [hlen]
    rcases hu : utf8EncodeChar c ++ (utf8Encode cs ++ r) with _ | ⟨b0, rest⟩
    · exfalso
      have hpos := utf8EncodeChar_length_pos c
      cases h : utf8EncodeChar c with
      | nil => rw [h] at hpos; simp at hpos
      | cons a l => rw [h] at hu; simp at hu
    · rw [utf8DecodeLoop, ← hu, utf8DecodeOne_encodeChar c]
      dsimp only
      rw [if_pos (char_toNat_isValidChar c), ih, Option.map_map, Char.ofNat_toNat]
      cases hr : utf8DecodeLoop f r <;> simp [hr]

theorem utf8Encode_length_ge (s : Str) : s.length ≤ (utf8Encode s).length := by
  induction s with
  | nil => simp [utf8Encode]
  | cons c cs ih =>
    rw [utf8Encode, List.length_append, List.length_cons]
    have := utf8EncodeChar_length_pos c
    omega

/-- Round trip: UTF-8 decoding inverts UTF-8 encoding. -/
theorem utf8Decode_utf8Encode (s : Str) : utf8Decode (utf8Encode s) = some s := by
  unfold utf8Decode
  have hf : (utf8Encode s).length = s.length + ((utf8Encode s).length - s.length) := by
    have := utf8Encode_length_ge s
    omega
  rw [hf]
  have h := utf8DecodeLoop_encode s ((utf8Encode s).length - s.length) []
  rw [List.append_nil] at h
  rw [h]
  have h0 : ∀ g, utf8DecodeLoop g ([] : List Nat) = some [] := by
    intro g
    cases g <;> rfl
  rw [h0]
  simp

theorem utf8EncodeChar_lt (c : Char) : ∀ b ∈ utf8EncodeChar c, b < 256 := by
  have hlt := char_toNat_lt c
  intro b hb
  simp only [utf8EncodeChar] at hb
  split_ifs at hb with h1 h2 h3
  · simp only [List.mem_cons, List.not_mem_nil, or_false] at hb
    omega
  · simp only [List.mem_cons, List.not_mem_nil, or_false] at hb
    rcases hb with h | h <;> omega
  · simp only [List.mem_cons, List.not_mem_nil, or_false] at hb
    rcases hb with h | h | h <;> omega
  · simp only [List.mem_cons, List.not_mem_nil, or_false] at hb
    rcases hb with h | h | h | h <;> omega

theorem utf8Encode_lt (s : Str) : ∀ b ∈ utf8Encode s, b < 256 := by
  induction s with
  | nil => simp [utf8Encode]
  | cons c cs ih =>
    intro b hb
    rw [utf8Encode, List.mem_append] at hb
    rcases hb with h | h
    · exact utf8EncodeChar_lt c b h
    · exact ih b h

theorem cborHeader_readArg (major arg : Nat) (_hm : major < 8)
    (ha : arg < 18446744073709551616) :
    ∃ b t, cborHeader major arg = b :: t ∧ b / 32 = major ∧
      ∀ r, readArg (b % 32) (t ++ r) = some (arg, r) := by
  unfold cborHeader
  split_ifs with h1 h2 h3 h4
  · refine ⟨32 * major + arg, [], rfl, by omega, fun r => ?_⟩
    show readArg ((32 * major + arg) % 32) r = some (arg, r)
    have hmod : (32 * major + arg) % 32 = arg := by omega
    rw [hmod]
    unfold readArg
    rw [if_pos h1]
  · refine ⟨32 * major + 24, [arg], rfl, by omega, fun r => ?_⟩
    show readArg ((32 * major + 24) % 32) (arg :: r) = some (arg, r)
    have hmod : (32 * major + 24) % 32 = 24 := by omega
    rw [hmod]
    unfold readArg
    rw [if_neg (by omega), if_pos rfl]
  · refine ⟨32 * major + 25, [arg / 256, arg % 256], rfl, by omega, fun r => ?_⟩
    show readArg ((32 * major + 25) % 32) (arg / 256 :: arg % 256 :: r) = some (arg, r)
    have hmod : (32 * major + 25) % 32 = 25 := by omega
    rw [hmod]
    unfold readArg
    rw [if_neg (by omega), if_neg (by omega), if_pos rfl]
    dsimp only
    have harg : arg / 256 * 256 + arg % 256 = arg := by omega
    rw [harg]
  · refine ⟨32 * major + 26,
      [arg / 16777216 % 256, arg / 65536 % 256, arg / 256 % 256, arg % 256], rfl,
      by omega, fun r => ?_⟩
    show readArg ((32 * major + 26) % 32) (arg / 16777216 % 256 :: arg / 65536 % 256 ::
      arg / 256 % 256 :: arg % 256 :: r) = some (arg, r)
    have hmod : (32 * major + 26) % 32 = 26 := by omega
    rw [hmod]
    unfold readArg
    rw [if_neg (by omega), if_neg (by omega), if_neg (by omega), if_pos rfl]
    dsimp only
    have harg : ((arg / 16777216 % 256 * 256 + arg / 65536 % 256) * 256 +
        arg / 256 % 256) * 256 + arg % 256 = arg := by omega
    rw [harg]
  · refine ⟨32 * major + 27,
      [arg / 72057594037927936 % 256, arg / 281474976710656 % 256,
       arg / 1099511627776 % 256, arg / 4294967296 % 256, arg / 16777216 % 256,
       arg / 65536 % 256, arg / 256 % 256, arg % 256], rfl,
      by omega, fun r => ?_⟩
    show readArg ((32 * major + 27) % 32) (arg / 72057594037927936 % 256 ::
      arg / 281474976710656 % 256 :: arg / 1099511627776 % 256 ::
      arg / 4294967296 % 256 :: arg / 16777216 % 256 :: arg / 65536 % 256 ::
      arg / 256 % 256 :: arg % 256 :: r) = some (arg, r)
    have hmod : (32 * major + 27) % 32 = 27 := by omega
    rw [hmod]
    unfold readArg
    rw [if_neg (by omega), if_neg (by omega), if_neg (by omega), if_neg (by omega),
      if_pos rfl]
    dsimp only
    have harg : ((((((arg / 72057594037927936 % 256 * 256 +
        arg / 281474976710656 % 256) * 256 + arg / 1099511627776 % 256) * 256 +
        arg / 4294967296 % 256) * 256 + arg / 16777216 % 256) * 256 +
        arg / 65536 % 256) * 256 + arg / 256 % 256) * 256 + arg % 256 = arg := by
      omega
    rw [harg]

theorem cborHeader_length_pos (major arg : Nat) : 1 ≤ (cborHeader major arg).length := by
  unfold cborHeader
  split_ifs <;> simp

theorem cborHeader_lt (major arg : Nat) (hm : major < 8) :
    ∀ x ∈ cborHeader major arg, x < 256 := by
  intro x hx
  unfold cborHeader at hx
  split_ifs at hx with h1 h2 h3 h4
  · simp only [List.mem_cons, List.not_mem_nil, or_false] at hx
    omega
  · simp only [List.mem_cons, List.not_mem_nil, or_false] at hx
    rcases hx with h | h <;> omega
  · simp only [List.mem_cons, List.not_mem_nil, or_false] at hx
    rcases hx with h | h | h <;> omega
  · simp only [List.mem_cons, List.not_mem_nil, or_false] at hx
    rcases hx with h | h | h | h | h <;> omega
  · simp only [List.mem_cons, List.not_mem_nil, or_false] at hx
    rcases hx with h | h | h | h | h | h | h | h | h <;> omega

theorem cborDecodeList_zero (g : Nat) (bytes : List Nat) :
    cborDecodeList g 0 bytes = some ([], bytes) := by
  cases g <;> rfl

/-- Parsing an encoded text string off the front of a byte stream. -/
theorem cborDecodeVal_str (f : Nat) (s : Str) (r : List Nat)
    (h : (utf8Encode s).length < 18446744073709551616) :
    cborDecodeVal (f + 1) (cborEncode (.str s) ++ r) = some (.str s, r) := by
  obtain ⟨b, t, hbt, hdiv, hread⟩ := cborHeader_readArg 3 (utf8Encode s).length (by omega) h
  rw [cborEncode, hbt, List.append_assoc, List.cons_append]
  rw [cborDecodeVal, hread (utf8Encode s ++ r)]
  dsimp only
  rw [if_neg (by rw [hdiv]; decide), if_pos hdiv]
  rw [if_pos (by rw [List.length_append]; omega)]
  rw [List.take_left, List.drop_left, utf8Decode_utf8Encode]

/-- Parsing the encoded two-string envelope off the front of a byte
stream. -/
theorem cborDecodeVal_twoStrs (f : Nat) (a b : Str) (r : List Nat)
    (ha : (utf8Encode a).length < 18446744073709551616)
    (hb : (utf8Encode b).length < 18446744073709551616) :
    cborDecodeVal (f + 1 + 1 + 1 + 1) (cborEncode (.arr [.str a, .str b]) ++ r) =
      some (.arr [.str a, .str b], r) := by
  have henc : cborEncode (.arr [.str a, .str b]) =
      130 :: (cborEncode (.str a) ++ (cborEncode (.str b) ++ [])) := by
    rw [cborEncode]
    rfl
  rw [henc, List.append_nil, List.cons_append]
  rw [cborDecodeVal]
  have hread : readArg (130 % 32) ((cborEncode (.str a) ++ cborEncode (.str b)) ++ r) =
      some (2, (cborEncode (.str a) ++ cborEncode (.str b)) ++ r) := by
    unfold readArg
    rw [if_pos (by decide)]
  rw [hread]
  dsimp only
  rw [if_neg (by decide), if_neg (by decide), if_pos (by decide)]
  rw [cborDecodeList]
  have hf2 : f + 2 = f + 1 + 1 := rfl
  rw [hf2, List.append_assoc, cborDecodeVal_str (f + 1) a _ ha]
  dsimp only
  rw [cborDecodeList]
  rw [cborDecodeVal_str f b r hb]
  dsimp only
  rw [cborDecodeList_zero]

theorem cborEncode_str_length_pos (s : Str) : 1 ≤ (cborEncode (.str s)).length := by
  rw [cborEncode, List.length_append]
  have := cborHeader_length_pos 3 (utf8Encode s).length
  omega

/-- `cbor-x` round trip on the two-string envelope. -/
theorem cborDecode_twoStrs (a b : Str)
    (ha : (utf8Encode a).length < 18446744073709551616)
    (hb : (utf8Encode b).length < 18446744073709551616) :
    cborDecode (cborEncode (.arr [.str a, .str b])) = some (.arr [.str a, .str b]) := by
  unfold cborDecode
  have h3 : 3 ≤ (cborEncode (.arr [.str a, .str b])).length := by
    rw [cborEncode, List.length_append]
    rw [cborEncodeList, cborEncodeList, cborEncodeList, List.append_nil,
      List.length_append]
    have h0 := cborHeader_length_pos 4 (List.length [CborValue.str a, CborValue.str b])
    have h1 := cborEncode_str_length_pos a
    have h2 := cborEncode_str_length_pos b
    omega
  have hlen : (cborEncode (.arr [.str a, .str b])).length + 1 =
      (cborEncode (.arr [.str a, .str b])).length - 3 + 1 + 1 + 1 + 1 := by
    omega
  rw [hlen]
  have happ := cborDecodeVal_twoStrs
    ((cborEncode (.arr [.str a, .str b])).length - 3) a b [] ha hb
  rw [List.append_nil] at happ
  rw [happ]

theorem cborEncode_str_lt (s : Str) : ∀ x ∈ cborEncode (.str s), x < 256 := by
  intro x hx
  rw [cborEncode, List.mem_append] at hx
  rcases hx with h | h
  · exact cborHeader_lt 3 _ (by omega) x h
  · exact utf8Encode_lt s x h

theorem cborEncode_twoStrs_lt (a b : Str) :
    ∀ x ∈ cborEncode (.arr [.str a, .str b]), x < 256 := by
  intro x hx
  rw [cborEncode, List.mem_append] at hx
  rcases hx with h | h
  · exact cborHeader_lt 4 _ (by omega) x h
  · rw [cborEncodeList, List.mem_append] at h
    rcases h with h | h
    · exact cborEncode_str_lt a x h
    · rw [cborEncodeList, cborEncodeList, List.append_nil] at h
      exact cborEncode_str_lt b x h

/-- Parsing an encoded unsigned integer off the front of a byte
stream. -/
theorem cborDecodeVal_num (f k : Nat) (r : List Nat)
    (hk : k < 18446744073709551616) :
    cborDecodeVal (f + 1) (cborEncode (.num k) ++ r) = some (.num k, r) := by
  obtain ⟨b, t, hbt, hdiv, hread⟩ := cborHeader_readArg 0 k (by omega) hk
  rw [cborEncode, hbt, List.cons_append]
  rw [cborDecodeVal, hread r]
  dsimp only
  rw [if_pos hdiv]

/-- Parsing the encoded three-element `[string, string, uint]` envelope
off the front of a byte stream. -/
theorem cborDecodeVal_strStrNum (f : Nat) (a b : Str) (k : Nat) (r : List Nat)
    (ha : (utf8Encode a).length < 18446744073709551616)
    (hb : (utf8Encode b).length < 18446744073709551616)
    (hk : k < 18446744073709551616) :
    cborDecodeVal (f + 1 + 1 + 1 + 1 + 1)
      (cborEncode (.arr [.str a, .str b, .num k]) ++ r) =
      some (.arr [.str a, .str b, .num k], r) := by
  have henc : cborEncode (.arr [.str a, .str b, .num k]) =
      131 :: (cborEncode (.str a) ++ (cborEncode (.str b) ++
        (cborEncode (.num k) ++ []))) := by
    rw [cborEncode]
    rfl
  rw [henc, List.append_nil, List.cons_append]
  rw [cborDecodeVal]
  have hread : readArg (131 % 32)
      ((cborEncode (.str a) ++ (cborEncode (.str b) ++ cborEncode (.num k))) ++ r) =
      some (3, (cborEncode (.str a) ++ (cborEncode (.str b) ++ cborEncode (.num k))) ++ r) := by
    unfold readArg
    rw [if_pos (by decide)]
  rw [hread]
  dsimp only
  rw [if_neg (by decide), if_neg (by decide), if_pos (by decide)]
  rw [cborDecodeList]
  have hf3 : f + 3 = f + 1 + 1 + 1 := rfl
  rw [hf3, List.append_assoc, cborDecodeVal_str (f + 1 + 1) a _ ha]
  dsimp only
  rw [cborDecodeList]
  rw [List.append_assoc, cborDecodeVal_str (f + 1) b _ hb]
  dsimp only
  rw [cborDecodeList]
  rw [cborDecodeVal_num f k r hk]
  dsimp only
  rw [cborDecodeList_zero]

theorem cborEncode_num_length_pos (k : Nat) : 1 ≤ (cborEncode (.num k)).length := by
  rw [cborEncode]
  exact cborHeader_length_pos 0 k

/-- `cbor-x` round trip on the three-element envelope. -/
theorem cborDecode_strStrNum (a b : Str) (k : Nat)
    (ha : (utf8Encode a).length < 18446744073709551616)
    (hb : (utf8Encode b).length < 18446744073709551616)
    (hk : k < 18446744073709551616) :
    cborDecode (cborEncode (.arr [.str a, .str b, .num k])) =
      some (.arr [.str a, .str b, .num k]) := by
  unfold cborDecode
  have h4 : 4 ≤ (cborEncode (.arr [.str a, .str b, .num k])).length := by
    rw [cborEncode, List.length_append]
    rw [cborEncodeList, cborEncodeList, cborEncodeList, cborEncodeList,
      List.append_nil, List.length_append, List.length_append]
    have h0 := cborHeader_length_pos 4
      (List.length [CborValue.str a, CborValue.str b, CborValue.num k])
    have h1 := cborEncode_str_length_pos a
    have h2 := cborEncode_str_length_pos b
    have h3 := cborEncode_num_length_pos k
    omega
  have hlen : (cborEncode (.arr [.str a, .str b, .num k])).length + 1 =
      (cborEncode (.arr [.str a, .str b, .num k])).length - 4 + 1 + 1 + 1 + 1 + 1 := by
    omega
  rw [hlen]
  have happ := cborDecodeVal_strStrNum
    ((cborEncode (.arr [.str a, .str b, .num k])).length - 4) a b k [] ha hb hk
  rw [List.append_nil] at happ
  rw [happ]

theorem cborEncode_strStrNum_lt (a b : Str) (k : Nat) :
    ∀ x ∈ cborEncode (.arr [.str a, .str b, .num k]), x < 256 := by
  intro x hx
  rw [cborEncode, List.mem_append] at hx
  rcases hx with h | h
  · exact cborHeader_lt 4 _ (by omega) x h
  · rw [cborEncodeList, List.mem_append] at h
    rcases h with h | h
    · exact cborEncode_str_lt a x h
    · rw [cborEncodeList, List.mem_append] at h
      rcases h with h | h
      · exact cborEncode_str_lt b x h
      · rw [cborEncodeList, cborEncodeList, List.append_nil, cborEncode] at h
        exact cborHeader_lt 0 _ (by omega) x h

theorem sixbit_b64Char : ∀ n : Fin 64, sixbit (b64Char n.val) = some n.val := by decide

theorem sixbit_eqChar : sixbit '=' = none := by decide

theorem b64Char_swap_roundtrip : ∀ n : Fin 64,
    unswapUnderscore (unswapDash (swapSlash (swapPlus (b64Char n.val)))) = b64Char n.val := by
  decide

theorem b64Char_swap_ne_eqChar : ∀ n : Fin 64,
    swapSlash (swapPlus (b64Char n.val)) ≠ '=' := by decide

theorem swapPlus_eqChar : swapPlus '=' = '=' := by decide

theorem swapSlash_eqChar : swapSlash '=' = '=' := by decide

/-- Structure of base64 output: alphabet body plus a trailing run of at
most three `=`, total length a multiple of four. -/
theorem base64Encode_struct : ∀ (k : Nat) (bytes : List Nat), bytes.length ≤ k →
    (∀ b ∈ bytes, b < 256) →
    ∃ body j, base64Encode bytes = body ++ List.replicate j '=' ∧ j < 4 ∧
      (body.length + j) % 4 = 0 ∧ ∀ c ∈ body, ∃ n : Fin 64, c = b64Char n.val := by
  intro k
  induction k with
  | zero =>
    intro bytes hlen _
    rcases bytes with _ | ⟨b1, rest⟩
    · exact ⟨[], 0, rfl, by omega, by simp, by simp⟩
    · simp at hlen
  | succ k ih =>
    intro bytes hlen hlt
    rcases bytes with _ | ⟨b1, _ | ⟨b2, _ | ⟨b3, rest⟩⟩⟩
    · exact ⟨[], 0, rfl, by omega, by simp, by simp⟩
    · have h1 : b1 < 256 := hlt b1 (by simp)
      refine ⟨[b64Char (b1 / 4), b64Char (b1 % 4 * 16)], 2, ?_, by omega, by simp, ?_⟩
      · rfl
      · intro c hc
        simp only [List.mem_cons, List.not_mem_nil, or_false] at hc
        rcases hc with h | h
        · exact ⟨⟨b1 / 4, by omega⟩, h⟩
        · exact ⟨⟨b1 % 4 * 16, by omega⟩, h⟩
    · have h1 : b1 < 256 := hlt b1 (by simp)
      have h2 : b2 < 256 := hlt b2 (by simp)
      refine ⟨[b64Char (b1 / 4), b64Char (b1 % 4 * 16 + b2 / 16), b64Char (b2 % 16 * 4)],
        1, ?_, by omega, by simp, ?_⟩
      · rfl
      · intro c hc
        simp only [List.mem_cons, List.not_mem_nil, or_false] at hc
        rcases hc with h | h | h
        · exact ⟨⟨b1 / 4, by omega⟩, h⟩
        · exact ⟨⟨b1 % 4 * 16 + b2 / 16, by omega⟩, h⟩
        · exact ⟨⟨b2 % 16 * 4, by omega⟩, h⟩
    · have h1 : b1 < 256 := hlt b1 (by simp)
      have h2 : b2 < 256 := hlt b2 (by simp)
      have h3 : b3 < 256 := hlt b3 (by simp)
      have hrest : rest.length ≤ k := by
        simp only [List.length_cons] at hlen
        omega
      obtain ⟨body, j, he, hj, hmod, hmem⟩ := ih rest hrest
        (fun b hb => hlt b (by simp [hb]))
      refine ⟨b64Char (b1 / 4) :: b64Char (b1 % 4 * 16 + b2 / 16) ::
        b64Char (b2 % 16 * 4 + b3 / 64) :: b64Char (b3 % 64) :: body, j, ?_, hj, ?_, ?_⟩
      · rw [base64Encode, he]
        rfl
      · simp only [List.length_cons]
        omega
      · intro c hc
        simp only [List.mem_cons] at hc
        rcases hc with h | h | h | h | h
        · exact ⟨⟨b1 / 4, by omega⟩, h⟩
        · exact ⟨⟨b1 % 4 * 16 + b2 / 16, by omega⟩, h⟩
        · exact ⟨⟨b2 % 16 * 4 + b3 / 64, by omega⟩, h⟩
        · exact ⟨⟨b3 % 64, by omega⟩, h⟩
        · exact hmem c h

/-- Forgiving decode inverts encode (the trailing `=` are filtered out,
the sextets reassemble the bytes). -/
theorem sixbits_decode : ∀ (k : Nat) (bytes : List Nat), bytes.length ≤ k →
    (∀ b ∈ bytes, b < 256) →
    sixbitsToBytes (List.filterMap sixbit (base64Encode bytes)) = bytes := by
  intro k
  induction k with
  | zero =>
    intro bytes hlen _
    rcases bytes with _ | ⟨b1, rest⟩
    · rfl
    · simp at hlen
  | succ k ih =>
    intro bytes hlen hlt
    rcases bytes with _ | ⟨b1, _ | ⟨b2, _ | ⟨b3, rest⟩⟩⟩
    · rfl
    · have h1 : b1 < 256 := hlt b1 (by simp)
      have s1 := sixbit_b64Char ⟨b1 / 4, by omega⟩
      have s2 := sixbit_b64Char ⟨b1 % 4 * 16, by omega⟩
      rw [base64Encode]
      rw [List.filterMap_cons, s1, List.filterMap_cons, s2,
        List.filterMap_cons, sixbit_eqChar, List.filterMap_cons, sixbit_eqChar,
        List.filterMap_nil]
      rw [sixbitsToBytes]
      have : b1 / 4 * 4 + b1 % 4 * 16 / 16 = b1 := by omega
      rw [this]
    · have h1 : b1 < 256 := hlt b1 (by simp)
      have h2 : b2 < 256 := hlt b2 (by simp)
      have s1 := sixbit_b64Char ⟨b1 / 4, by omega⟩
      have s2 := sixbit_b64Char ⟨b1 % 4 * 16 + b2 / 16, by omega⟩
      have s3 := sixbit_b64Char ⟨b2 % 16 * 4, by omega⟩
      rw [base64Encode]
      rw [List.filterMap_cons, s1, List.filterMap_cons, s2, List.filterMap_cons, s3,
        List.filterMap_cons, sixbit_eqChar, List.filterMap_nil]
      rw [sixbitsToBytes]
      have e1 : b1 / 4 * 4 + (b1 % 4 * 16 + b2 / 16) / 16 = b1 := by omega
      have e2 : (b1 % 4 * 16 + b2 / 16) % 16 * 16 + b2 % 16 * 4 / 4 = b2 := by omega
      rw [e1, e2]
    · have h1 : b1 < 256 := hlt b1 (by simp)
      have h2 : b2 < 256 := hlt b2 (by simp)
      have h3 : b3 < 256 := hlt b3 (by simp)
      have hrest : rest.length ≤ k := by
        simp only [List.length_cons] at hlen
        omega
      have ihr := ih rest hrest (fun b hb => hlt b (by simp [hb]))
      have s1 := sixbit_b64Char ⟨b1 / 4, by omega⟩
      have s2 := sixbit_b64Char ⟨b1 % 4 * 16 + b2 / 16, by omega⟩
      have s3 := sixbit_b64Char ⟨b2 % 16 * 4 + b3 / 64, by omega⟩
      have s4 := sixbit_b64Char ⟨b3 % 64, by omega⟩
      rw [base64Encode]
      rw [List.filterMap_cons, s1, List.filterMap_cons, s2, List.filterMap_cons, s3,
        List.filterMap_cons, s4]
      rw [sixbitsToBytes, ihr]
      have e1 : b1 / 4 * 4 + (b1 % 4 * 16 + b2 / 16) / 16 = b1 := by omega
      have e2 : (b1 % 4 * 16 + b2 / 16) % 16 * 16 + (b2 % 16 * 4 + b3 / 64) / 4 = b2 := by
        omega
      have e3 : (b2 % 16 * 4 + b3 / 64) % 4 * 64 + b3 % 64 = b3 := by omega
      rw [e1, e2, e3]

theorem dropWhile_replicate_append (m : Nat) (l : List Char) :
    List.dropWhile (fun c => c == '=') (List.replicate m '=' ++ l) =
      List.dropWhile (fun c => c == '=') l := by
  induction m with
  | zero => rfl
  | succ m ih =>
    rw [List.replicate_succ, List.cons_append, List.dropWhile_cons]
    simp [ih]

theorem dropWhile_of_head_ne (l : List Char) (h : ∀ c ∈ l, c ≠ '=') :
    List.dropWhile (fun c => c == '=') l = l := by
  cases l with
  | nil => rfl
  | cons c t =>
    rw [List.dropWhile_cons]
    have : (c == '=') = false := by
      have := h c (by simp)
      simp [this]
    simp [this]

theorem stripTrailingEq_spec (body : List Char) (j : Nat) (h : ∀ c ∈ body, c ≠ '=') :
    stripTrailingEq (body ++ List.replicate j '=') = body := by
  unfold stripTrailingEq
  rw [List.reverse_append, List.reverse_replicate, dropWhile_replicate_append]
  rw [dropWhile_of_head_ne _ (fun c hc => h c (List.mem_reverse.mp hc))]
  exact List.reverse_reverse body

theorem map_swaps_id (l : List Char)
    (h : ∀ a ∈ l, unswapUnderscore (unswapDash (swapSlash (swapPlus a))) = a) :
    List.map unswapUnderscore (List.map unswapDash
      (List.map swapSlash (List.map swapPlus l))) = l := by
  induction l with
  | nil => rfl
  | cons a t ih =>
    simp only [List.map_cons]
    rw [h a (by simp), ih (fun a ha => h a (by simp [ha]))]

/-- Un-sanitizing a sanitized base64 encoding restores it exactly. -/
theorem unsanitize_sanitize (bytes : List Nat) (hlt : ∀ b ∈ bytes, b < 256) :
    unsanitize (sanitize (base64Encode bytes)) = base64Encode bytes := by
  obtain ⟨body, j, he, hj, hmod, hmem⟩ :=
    base64Encode_struct bytes.length bytes (le_refl _) hlt
  rw [he]
  unfold sanitize
  rw [List.map_append, List.map_append, List.map_replicate, List.map_replicate,
    swapPlus_eqChar, swapSlash_eqChar]
  have hne : ∀ c ∈ (body.map swapPlus).map swapSlash, c ≠ '=' := by
    intro c hc
    rw [List.map_map] at hc
    obtain ⟨a, ha, rfl⟩ := List.mem_map.mp hc
    obtain ⟨n, rfl⟩ := hmem a ha
    exact b64Char_swap_ne_eqChar n
  rw [stripTrailingEq_spec _ j hne]
  unfold unsanitize padEq
  have hid := map_swaps_id body (fun a ha => by
    obtain ⟨n, rfl⟩ := hmem a ha
    exact b64Char_swap_roundtrip n)
  rw [hid]
  have hpad : (4 - body.length % 4) % 4 = j := by omega
  rw [hpad]

/-- The decode pipeline (un-sanitize, forgiving base64) inverts the
encode pipeline (base64, sanitize) on any byte list. -/
theorem base64_pipeline (bytes : List Nat) (hlt : ∀ b ∈ bytes, b < 256) :
    base64DecodeChars (unsanitize (sanitize (base64Encode bytes))) = bytes := by
  rw [unsanitize_sanitize bytes hlt]
  exact sixbits_decode bytes.length bytes (le_refl _) hlt

theorem splitByFirstOccurrence_append (p rest : Str) (hp : '_' ∉ p) :
    splitByFirstOccurrence (p ++ '_' :: rest) '_' = (p, some rest) := by
  induction p with
  | nil =>
    rw [List.nil_append, splitByFirstOccurrence, if_pos rfl]
  | cons c t ih =>
    rw [List.cons_append, splitByFirstOccurrence]
    have hc : ¬(c = '_') := fun h => hp (by simp [h])
    rw [if_neg hc, ih (fun h => hp (by simp [h]))]

theorem assocGet_assocSet_self {β : Type} (m : List (Str × β)) (k : Str) (x : β) :
    assocGet (assocSet m k x) k = some x := by
  induction m with
  | nil =>
    simp [assocSet, assocGet]
  | cons kv rest ih =>
    obtain ⟨k', v'⟩ := kv
    by_cases h : k' = k
    · rw [assocSet, if_pos h, assocGet, if_pos rfl]
    · rw [assocSet, if_neg h, assocGet, if_neg h, ih]

theorem assocGet_assocSet_ne {β : Type} (m : List (Str × β)) (k k' : Str) (x : β)
    (h : k ≠ k') : assocGet (assocSet m k x) k' = assocGet m k' := by
  induction m with
  | nil =>
    simp [assocSet, assocGet, h]
  | cons kv rest ih =>
    obtain ⟨k0, v0⟩ := kv
    by_cases h0 : k0 = k
    · rw [assocSet, if_pos h0, assocGet, if_neg h, assocGet, h0, if_neg (h0 ▸ h)]
    · rw [assocSet, if_neg h0, assocGet, assocGet]
      by_cases h1 : k0 = k'
      · rw [if_pos h1, if_pos h1]
      · rw [if_neg h1, if_neg h1, ih]

theorem truthyStrOpt_some_iff (o : Option Str) :
    truthyStrOpt o = true ↔ ∃ s, o = some s ∧ s ≠ [] := by
  cases o with
  | none => simp [truthyStrOpt]
  | some s =>
    cases s with
    | nil => simp [truthyStrOpt, List.isEmpty]
    | cons c t => simp [truthyStrOpt, List.isEmpty]

/-- `getParser` can only fail with `UnknownType` or `UnknownVersion`. -/
theorem getParser_error_kind (pr : ParserRegistry) (t v : Str) (e : Err)
    (h : getParser pr t v = .error e) : e = .unknownType ∨ e = .unknownVersion := by
  unfold getParser at h
  split at h
  · exact Or.inl (by cases h; rfl)
  · split at h
    · exact Or.inr (by cases h; rfl)
    · cases h

/-- Invariant of nonempty registration: stored names are nonempty and
the two maps are mutually inverse. -/
theorem neReach_invariant {tr : TypeRegistry} (h : NEReach tr) :
    (∀ t p, assocGet tr.typeMap t = some p → p ≠ []) ∧
    (∀ p t, assocGet tr.prefixMap p = some t → t ≠ []) ∧
    (∀ t p, assocGet tr.typeMap t = some p ↔ assocGet tr.prefixMap p = some t) := by
  induction h with
  | init =>
    refine ⟨?_, ?_, ?_⟩ <;> intro a b <;> simp [assocGet]
  | @step tr tr' t p hre htne hpne hreg ih =>
    obtain ⟨ih1, ih2, ih3⟩ := ih
    unfold registerType at hreg
    split at hreg
    · cases hreg
    · rename_i hcond
      cases hreg
      rw [Bool.or_eq_true, not_or] at hcond
      obtain ⟨hct, hcp⟩ := hcond
      have hgt : assocGet tr.typeMap t = none := by
        cases hg : assocGet tr.typeMap t with
        | none => rfl
        | some x =>
          exact absurd ((truthyStrOpt_some_iff _).mpr ⟨x, hg, ih1 t x hg⟩) hct
      have hgp : assocGet tr.prefixMap p = none := by
        cases hg : assocGet tr.prefixMap p with
        | none => rfl
        | some x =>
          exact absurd ((truthyStrOpt_some_iff _).mpr ⟨x, hg, ih2 p x hg⟩) hcp
      refine ⟨?_, ?_, ?_⟩
      · intro t1 p1 hg
        by_cases h1 : t = t1
        · rw [← h1, assocGet_assocSet_self] at hg
          cases hg
          exact hpne
        · rw [assocGet_assocSet_ne _ _ _ _ h1] at hg
          exact ih1 t1 p1 hg
      · intro p1 t1 hg
        by_cases h1 : p = p1
        · rw [← h1, assocGet_assocSet_self] at hg
          cases hg
          exact htne
        · rw [assocGet_assocSet_ne _ _ _ _ h1] at hg
          exact ih2 p1 t1 hg
      · intro t1 p1
        by_cases h1 : t = t1
        · subst h1
          rw [assocGet_assocSet_self]
          by_cases h2 : p = p1
          · subst h2
            rw [assocGet_assocSet_self]
            simp
          · rw [assocGet_assocSet_ne _ _ _ _ h2]
            constructor
            · intro hg
              cases hg
              exact absurd rfl h2
            · intro hg
              have := (ih3 t p1).mpr hg
              rw [hgt] at this
              cases this
        · rw [assocGet_assocSet_ne _ _ _ _ h1]
          by_cases h2 : p = p1
          · subst h2
            rw [assocGet_assocSet_self]
            constructor
            · intro hg
              have := (ih3 t1 p).mp hg
              rw [hgp] at this
              cases this
            · intro hg
              cases hg
              exact absurd rfl h1
          · rw [assocGet_assocSet_ne _ _ _ _ h2]
            exact ih3 t1 p1

/-- In every reachable registry pair, a prefix with a parser map has a
truthy (present, nonempty) type entry: `registerParser` required it at
registration time, and `registerType` never overwrites a truthy entry. -/
theorem reach_parsers_getType {tr : TypeRegistry} {pr : ParserRegistry}
    (h : Reach tr pr) :
    ∀ pre, (assocGet pr.parsers pre).isSome = true →
      ∃ ty, tr.getType pre = some ty ∧ ty ≠ [] := by
  induction h with
  | init =>
    intro pre h
    simp [assocGet] at h
  | @regType tr tr' pr t p hre hreg ih =>
    intro pre hp
    obtain ⟨ty, hty, htyne⟩ := ih pre hp
    unfold registerType at hreg
    split at hreg
    · cases hreg
    · rename_i hcond
      cases hreg
      rw [Bool.or_eq_true, not_or] at hcond
      obtain ⟨_, hcp⟩ := hcond
      show ∃ ty', assocGet (assocSet tr.prefixMap p t) pre = some ty' ∧ ty' ≠ []
      by_cases h1 : p = pre
      · subst h1
        exact absurd ((truthyStrOpt_some_iff _).mpr ⟨ty, hty, htyne⟩) hcp
      · rw [assocGet_assocSet_ne _ _ _ _ h1]
        exact ⟨ty, hty, htyne⟩
  | @regParser tr pr pr' t v q hre hreg ih =>
    intro pre hp
    unfold registerParser at hreg
    split at hreg
    · cases hreg
    · rename_i hcond
      cases hreg
      rw [Bool.not_eq_true', Bool.not_eq_false] at hcond
      by_cases h1 : t = pre
      · subst h1
        obtain ⟨ty, hty, htyne⟩ := (truthyStrOpt_some_iff _).mp hcond
        exact ⟨ty, hty, htyne⟩
      · rw [assocGet_assocSet_ne _ _ _ _ h1] at hp
        exact ih pre hp

/-- C3, counterexample: after registering type `"A"` under the empty
prefix, `"A"` is already mapped, yet `registerType("A", "q")` does not
fail with `DuplicateRegistration` — the truthiness guard sees the stored
empty string as falsy and the call remaps `"A"`. -/
theorem c3_counterexample :
    registerType ⟨[], []⟩ "A".data [] = .ok trBadA ∧
    assocGet trBadA.typeMap "A".data = some [] ∧
    registerType trBadA "A".data "q".data ≠ .error .duplicateRegistration := by
  decide

/-- C3, amended: restricted to `registerType` calls with nonempty type
and prefix (`NEReach` states).  A call whose type or prefix is already
mapped fails with `DuplicateRegistration` (the failure precedes both map
assignments, so the registry is unchanged), and in every such reachable
state the type-to-prefix mapping is a bijection: the two maps are
mutually inverse, so no two types share a prefix and no type is mapped
twice. -/
theorem c3_duplicate_rejection_amended (tr : TypeRegistry) (h : NEReach tr)
    (t p : Str) :
    (((∃ q, assocGet tr.typeMap t = some q) ∨ (∃ q, assocGet tr.prefixMap p = some q)) →
      registerType tr t p = .error .duplicateRegistration) ∧
    (∀ t₁ t₂ p₁, assocGet tr.typeMap t₁ = some p₁ → assocGet tr.typeMap t₂ = some p₁ →
      t₁ = t₂) ∧
    (∀ t₁ p₁, assocGet tr.typeMap t₁ = some p₁ ↔ assocGet tr.prefixMap p₁ = some t₁) := by
  obtain ⟨h1, h2, h3⟩ := neReach_invariant h
  refine ⟨?_, ?_, h3⟩
  · intro hdup
    unfold registerType
    have hcond : truthyStrOpt (assocGet tr.typeMap t) = true ∨
        truthyStrOpt (assocGet tr.prefixMap p) = true := by
      rcases hdup with ⟨q, hq⟩ | ⟨q, hq⟩
      · exact Or.inl ((truthyStrOpt_some_iff _).mpr ⟨q, hq, h1 t q hq⟩)
      · exact Or.inr ((truthyStrOpt_some_iff _).mpr ⟨q, hq, h2 p q hq⟩)
    rw [if_pos (by rw [Bool.or_eq_true]; exact hcond)]
  · intro t₁ t₂ p₁ hg1 hg2
    have e1 := (h3 t₁ p₁).mp hg1
    have e2 := (h3 t₂ p₁).mp hg2
    rw [e1] at e2
    cases e2
    rfl

/-- C3, witness: in the reachable state `{A ↦ a}`, re-registering the
mapped type `"A"` (under a fresh prefix) fails with
`DuplicateRegistration`. -/
theorem c3_duplicate_rejection_amended_witness :
    registerType trA "A".data "b".data = .error .duplicateRegistration :=
  (c3_duplicate_rejection_amended trA
    (NEReach.step (t := "A".data) (p := "a".data) NEReach.init (by decide) (by decide)
      (by decide))
    "A".data "b".data).1 (Or.inl ⟨"a".data, by decide⟩)

/-- C4, counterexample: after `registerType("", "p")` the prefix `"p"`
*is* present in the TypeRegistry (`getType("p")` is `some ""`), yet
`registerParser("p", "1", …)` fails with `UnknownType`, because the
guard is a truthiness test and the stored empty type name is falsy.  So
"fails exactly when `type` is not present" is wrong. -/
theorem c4_counterexample :
    registerType ⟨[], []⟩ [] "p".data = .ok trBadP ∧
    (trBadP.getType "p".data).isSome = true ∧
    registerParser ⟨[]⟩ trBadP "p".data "1".data idParser = .error .unknownType := by
  refine ⟨by decide, by decide, rfl⟩

/-- C4, amended: `registerParser(type, version, parser)` fails with
`UnknownType` exactly when `TypeRegistry.getType(type)` is falsy (absent
*or* the empty string); otherwise it stores the parser under
`(type, version)`, silently overwriting any previous entry. -/
theorem c4_register_parser_amended (pr : ParserRegistry) (tr : TypeRegistry)
    (t v : Str) (q : IParser) :
    (truthyStrOpt (tr.getType t) = false →
      registerParser pr tr t v q = .error .unknownType) ∧
    (truthyStrOpt (tr.getType t) = true →
      ∃ pr', registerParser pr tr t v q = .ok pr' ∧ getParser pr' t v = .ok q) := by
  constructor
  · intro h
    unfold registerParser
    rw [if_pos (by rw [h]; rfl)]
  · intro h
    unfold registerParser
    rw [if_neg (by rw [h]; simp)]
    refine ⟨_, rfl, ?_⟩
    unfold getParser
    rw [assocGet_assocSet_self]
    dsimp only
    rw [assocGet_assocSet_self]

/-- C4, witness: the failing branch on the empty registry and the
storing branch on `{Organization ↦ org}`, where the freshly stored
parser is retrievable. -/
theorem c4_register_parser_amended_witness :
    registerParser ⟨[]⟩ ⟨[], []⟩ "p".data "1".data idParser = .error .unknownType ∧
    ∃ pr', registerParser ⟨[]⟩ orgTr "org".data "2.0.0".data idParser = .ok pr' ∧
      getParser pr' "org".data "2.0.0".data = .ok idParser :=
  ⟨(c4_register_parser_amended ⟨[]⟩ ⟨[], []⟩ "p".data "1".data idParser).1 rfl,
    (c4_register_parser_amended ⟨[]⟩ orgTr "org".data "2.0.0".data idParser).2 rfl⟩

/-- C5: `getParser` fails with `UnknownType` when no parser map exists
for the type at all, with `UnknownVersion` when the map exists but holds
nothing under the version, and otherwise returns the stored parser. -/
theorem c5_getParser_spec (pr : ParserRegistry) (t v : Str) :
    (assocGet pr.parsers t = none → getParser pr t v = .error .unknownType) ∧
    (∀ m, assocGet pr.parsers t = some m → assocGet m v = none →
      getParser pr t v = .error .unknownVersion) ∧
    (∀ m q, assocGet pr.parsers t = some m → assocGet m v = some q →
      getParser pr t v = .ok q) := by
  refine ⟨?_, ?_, ?_⟩
  · intro h
    unfold getParser
    rw [h]
  · intro m hm hv
    unfold getParser
    rw [hm]
    dsimp only
    rw [hv]
  · intro m q hm hv
    unfold getParser
    rw [hm]
    dsimp only
    rw [hv]

/-- C5, witness: the three branches at concrete registries. -/
theorem c5_getParser_spec_witness :
    getParser ⟨[]⟩ "org".data "1.0.0".data = .error .unknownType ∧
    getParser orgPr "org".data "9".data = .error .unknownVersion ∧
    getParser orgPr "org".data "1.0.0".data = .ok idParser :=
  ⟨(c5_getParser_spec ⟨[]⟩ "org".data "1.0.0".data).1 rfl,
    (c5_getParser_spec orgPr "org".data "9".data).2.1 _ rfl rfl,
    (c5_getParser_spec orgPr "org".data "1.0.0".data).2.2 _ _ rfl rfl⟩

/-- C6: encoding a GlobalId whose type has no prefix registered fails
with `UnregisteredType` — for every parser registry and every value, so
the failure precedes the null check, the parser lookup and
serialization. -/
theorem c6_unregistered_type (pr : ParserRegistry) (tr : TypeRegistry)
    (ty ver : Str) (v : JSVal) (h : tr.getPrefix ty = none) :
    encode pr tr ⟨ty, ver, v⟩ = .error .unregisteredType := by
  unfold encode
  dsimp only
  rw [h]

/-- C6, witness: an unregistered type on the empty registries, with a
non-null value (showing the failure is the type lookup, not the null
check). -/
theorem c6_unregistered_type_witness :
    encode ⟨[]⟩ ⟨[], []⟩ ⟨"X".data, "1".data, .str "x".data⟩ = .error .unregisteredType :=
  c6_unregistered_type ⟨[]⟩ ⟨[], []⟩ "X".data "1".data (.str "x".data) (by decide)

/-- C7, counterexample: type `"B"` *is* registered (with the empty
prefix, which `registerType` accepted), yet encoding a null value fails
with `UnregisteredType`, not `NullValue` — the truthiness test
`!typePrefix` fires on the empty prefix before the null check. -/
theorem c7_counterexample :
    registerType ⟨[], []⟩ "B".data [] = .ok trBadB ∧
    (trBadB.getPrefix "B".data).isSome = true ∧
    encode ⟨[]⟩ trBadB ⟨"B".data, "1".data, .null⟩ = .error .unregisteredType ∧
    encode ⟨[]⟩ trBadB ⟨"B".data, "1".data, .null⟩ ≠ .error .nullValue := by
  decide

/-- C7, amended: for every type registered with a *nonempty* prefix and
every version, encoding a GlobalId whose value is null or undefined
fails with `NullValue`, for every parser registry (the check precedes
the parser lookup). -/
theorem c7_null_value_amended (pr : ParserRegistry) (tr : TypeRegistry)
    (t p ver : Str) (h1 : tr.getPrefix t = some p) (h2 : p ≠ []) :
    encode pr tr ⟨t, ver, .null⟩ = .error .nullValue ∧
    encode pr tr ⟨t, ver, .undef⟩ = .error .nullValue := by
  have hpe : p.isEmpty = false := by
    cases p with
    | nil => exact absurd rfl h2
    | cons a l => rfl
  constructor <;>
    (unfold encode
     dsimp only
     rw [h1]
     dsimp only
     rw [hpe]
     rfl)

/-- C7, witness: null and undefined values on `{Organization ↦ org}`. -/
theorem c7_null_value_amended_witness :
    encode orgPr orgTr ⟨"Organization".data, "1.0.0".data, .null⟩ = .error .nullValue ∧
    encode orgPr orgTr ⟨"Organization".data, "1.0.0".data, .undef⟩ = .error .nullValue :=
  c7_null_value_amended orgPr orgTr "Organization".data "org".data "1.0.0".data
    (by decide) (by decide)

/-- C8: whenever `encode` succeeds, the returned string is the
registered prefix of the GlobalId's type followed by `_` and the
sanitized payload. -/
theorem c8_prefix_stability (pr : ParserRegistry) (tr : TypeRegistry)
    (id : GlobalId) (s : Str) (h : encode pr tr id = .ok s) :
    ∃ p rest, tr.getPrefix id.type = some p ∧ s = p ++ '_' :: rest := by
  unfold encode at h
  cases hp : tr.getPrefix id.type with
  | none =>
    rw [hp] at h
    cases h
  | some p =>
    rw [hp] at h
    dsimp only at h
    split_ifs at h
    cases hq : getParser pr p id.version with
    | error e =>
      rw [hq] at h
      cases h
    | ok parser =>
      rw [hq] at h
      dsimp only at h
      cases h
      exact ⟨p, _, rfl, rfl⟩

/-- C8, witness: the concrete encoding starts with `org_`. -/
theorem c8_prefix_stability_witness :
    ∃ p rest, orgTr.getPrefix "Organization".data = some p ∧
      orgEncoded = p ++ '_' :: rest :=
  c8_prefix_stability orgPr orgTr ⟨"Organization".data, "1.0.0".data, .str "x".data⟩
    orgEncoded (by decide)

/-- C9: in every registry state reachable by successful `registerType`
and `registerParser` calls, whenever `getParser(prefix, version)`
succeeds — as in `decode` after parser resolution — the
`TypeRegistry.getType(prefix)` lookup yields a present, nonempty (hence
truthy) type, so `decode`'s defensive `UnregisteredType` re-check branch
cannot be taken. -/
theorem c9_defensive_check_unreachable (tr : TypeRegistry) (pr : ParserRegistry)
    (h : Reach tr pr) (pre ver : Str) (q : IParser)
    (hq : getParser pr pre ver = .ok q) :
    ∃ ty, tr.getType pre = some ty ∧ ty ≠ [] := by
  apply reach_parsers_getType h
  unfold getParser at hq
  cases hg : assocGet pr.parsers pre with
  | none =>
    rw [hg] at hq
    cases hq
  | some m => rfl

/-- C9, witness: the state `{Organization ↦ org}` with the `1.0.0`
parser, reached by one `registerType` and one `registerParser`. -/
theorem c9_defensive_check_unreachable_witness :
    ∃ ty, orgTr.getType "org".data = some ty ∧ ty ≠ [] :=
  c9_defensive_check_unreachable orgTr orgPr
    (Reach.regParser (t := "org".data) (v := "1.0.0".data) (q := idParser)
      (Reach.regType (t := "Organization".data) (p := "org".data) Reach.init (by decide))
      rfl)
    "org".data "1.0.0".data idParser rfl

/-- C10, counterexample: for the registered type `"C"` (empty prefix),
encoding the falsy value `0` fails with `UnregisteredType`, not the
`NullValue` error the claim names — so "for every registered type" is
too strong. -/
theorem c10_counterexample :
    registerType ⟨[], []⟩ "C".data [] = .ok trBadC ∧
    (trBadC.getPrefix "C".data).isSome = true ∧
    encode ⟨[]⟩ trBadC ⟨"C".data, "1".data, .num 0⟩ = .error .unregisteredType ∧
    encode ⟨[]⟩ trBadC ⟨"C".data, "1".data, .num 0⟩ ≠ .error .nullValue := by
  decide

/-- C10, amended: for every type registered with a *nonempty* prefix and
every version, `encode` rejects every falsy payload value — `null`,
`undefined`, `0`, the empty string, `false` and `NaN` — with the
`NullValue` error, so such values can never be encoded. -/
theorem c10_falsy_rejected_amended (pr : ParserRegistry) (tr : TypeRegistry)
    (t p ver : Str) (v : JSVal) (h1 : tr.getPrefix t = some p) (h2 : p ≠ [])
    (hv : v.isTruthy = false) :
    encode pr tr ⟨t, ver, v⟩ = .error .nullValue := by
  have hpe : p.isEmpty = false := by
    cases p with
    | nil => exact absurd rfl h2
    | cons a l => rfl
  unfold encode
  dsimp only
  rw [h1]
  dsimp only
  rw [hpe, hv]
  rfl

/-- C10, witness: the four falsy concrete payloads of the claim on
`{Organization ↦ org}`. -/
theorem c10_falsy_rejected_amended_witness :
    encode orgPr orgTr ⟨"Organization".data, "1.0.0".data, .num 0⟩ = .error .nullValue ∧
    encode orgPr orgTr ⟨"Organization".data, "1.0.0".data, .str []⟩ = .error .nullValue ∧
    encode orgPr orgTr ⟨"Organization".data, "1.0.0".data, .bool false⟩ = .error .nullValue ∧
    encode orgPr orgTr ⟨"Organization".data, "1.0.0".data, .nan⟩ = .error .nullValue :=
  ⟨c10_falsy_rejected_amended orgPr orgTr _ "org".data _ _ (by decide) (by decide) rfl,
    c10_falsy_rejected_amended orgPr orgTr _ "org".data _ _ (by decide) (by decide) rfl,
    c10_falsy_rejected_amended orgPr orgTr _ "org".data _ _ (by decide) (by decide) rfl,
    c10_falsy_rejected_amended orgPr orgTr _ "org".data _ _ (by decide) (by decide) rfl⟩

/-- `decodeResolve` never reports `MalformedPayload`: once the envelope
destructured, every failure is a registry, parser or type-label error. -/
theorem decodeResolve_ne_malformed (pr : ParserRegistry) (tr : TypeRegistry)
    (pre : Str) (dataOpt verOpt : Option CborValue) :
    decodeResolve pr tr pre dataOpt verOpt ≠ .error .malformedPayload := by
  unfold decodeResolve
  intro h
  split at h
  · split at h
    · rename_i e heq
      cases h
      rcases getParser_error_kind pr pre _ _ heq with h' | h' <;> cases h'
    · split at h
      · cases h
      · split at h
        · cases h
        · split_ifs at h
          cases h
  · split at h
    · cases h
    · cases h

/-- C2, counterexample: the payload of `env3Str` deserializes to a
three-element array — not the expected 2-element `[formatted, version]`
shape — yet `decode` does not fail with `MalformedPayload`: destructuring
silently ignores the third element and `decode` returns a GlobalId. -/
theorem c2_counterexample :
    cborDecode (base64DecodeChars (unsanitize (sanitize (base64Encode
      (cborEncode env3))))) = some env3 ∧
    decode orgPr orgTr env3Str =
      .ok ⟨"Organization".data, "1.0.0".data, .str "x".data⟩ := by
  constructor
  · rfl
  · decide

/-- C2, amended: `decode` performs no 2-element shape check on the
deserialized envelope.  For every registry state, every underscore-free
prefix, all strings `a` (formatted) and `b` (version) and any extra
unsigned-integer element, the wire string whose payload encodes the
*three*-element array `[a, b, extra]` is decoded exactly as the
two-element `[a, b]` envelope is: destructuring binds `formatted` and
`version` to the first two elements and silently ignores the rest, the
call proceeds to parser resolution, and it never fails with
`MalformedPayload` — so corruption that turns the payload into a longer
but still deserializable envelope is not detected as corruption, and
can end in registry errors or a silently wrong GlobalId instead. -/
theorem c2_shape_unchecked_amended (pr : ParserRegistry) (tr : TypeRegistry)
    (p a b : Str) (k : Nat) (hpu : '_' ∉ p)
    (ha : (utf8Encode a).length < 18446744073709551616)
    (hb : (utf8Encode b).length < 18446744073709551616)
    (hk : k < 18446744073709551616) :
    decode pr tr (envelopeWire p (.arr [.str a, .str b, .num k])) =
      decodeResolve pr tr p (some (.str a)) (some (.str b)) ∧
    decode pr tr (envelopeWire p (.arr [.str a, .str b, .num k])) =
      decode pr tr (envelopeWire p (.arr [.str a, .str b])) ∧
    decode pr tr (envelopeWire p (.arr [.str a, .str b, .num k])) ≠
      .error .malformedPayload := by
  have h3 : decode pr tr (envelopeWire p (.arr [.str a, .str b, .num k])) =
      decodeResolve pr tr p (some (.str a)) (some (.str b)) := by
    unfold envelopeWire decode
    rw [splitByFirstOccurrence_append p _ hpu]
    dsimp only
    rw [base64_pipeline _ (cborEncode_strStrNum_lt a b k)]
    rw [cborDecode_strStrNum a b k ha hb hk]
    dsimp only
    rw [show destructure2 (.arr [.str a, .str b, .num k]) =
      some (some (.str a), some (.str b)) from rfl]
  have h2 : decode pr tr (envelopeWire p (.arr [.str a, .str b])) =
      decodeResolve pr tr p (some (.str a)) (some (.str b)) := by
    unfold envelopeWire decode
    rw [splitByFirstOccurrence_append p _ hpu]
    dsimp only
    rw [base64_pipeline _ (cborEncode_twoStrs_lt a b)]
    rw [cborDecode_twoStrs a b ha hb]
    dsimp only
    rw [show destructure2 (.arr [.str a, .str b]) =
      some (some (.str a), some (.str b)) from rfl]
  refine ⟨h3, ?_, ?_⟩
  · rw [h3, h2]
  · rw [h3]
    exact decodeResolve_ne_malformed pr tr p (some (.str a)) (some (.str b))

/-- C2, witness: on `{Organization ↦ org}` with the `1.0.0` parser, the
three-element envelope `["x", "1.0.0", 7]` decodes like the two-element
one, without `MalformedPayload`. -/
theorem c2_shape_unchecked_amended_witness :
    decode orgPr orgTr (envelopeWire "org".data
        (.arr [.str "x".data, .str "1.0.0".data, .num 7])) =
      decodeResolve orgPr orgTr "org".data
        (some (.str "x".data)) (some (.str "1.0.0".data)) ∧
    decode orgPr orgTr (envelopeWire "org".data
        (.arr [.str "x".data, .str "1.0.0".data, .num 7])) =
      decode orgPr orgTr (envelopeWire "org".data
        (.arr [.str "x".data, .str "1.0.0".data])) ∧
    decode orgPr orgTr (envelopeWire "org".data
        (.arr [.str "x".data, .str "1.0.0".data, .num 7])) ≠
      .error .malformedPayload :=
  c2_shape_unchecked_amended orgPr orgTr "org".data "x".data "1.0.0".data 7
    (by decide) (by decide) (by decide) (by decide)

/-- C1, amended: the round trip holds for a registration discipline the
code relies on but does not enforce — the registered prefix is nonempty
and contains no `_` (separator collision), the type name is nonempty
(the decoder's truthiness re-check), and the value is truthy (the
encoder's `!id.getValue()` rejects every falsy payload, not only null).
Under those conditions, with the parser registered under the *prefix*
and `format`/`parse` mutually inverse at `v` (and the formatted value
and version within CBOR's 64-bit length arguments, as any JavaScript
string is), `decode (encode (GlobalId t ver v))` succeeds and returns an
equal GlobalId: same type, same version, same value. -/
theorem c1_round_trip_amended (pr : ParserRegistry) (tr : TypeRegistry)
    (t p ver : Str) (m : List (Str × IParser)) (parser : IParser) (v : JSVal)
    (ht : tr.getPrefix t = some p) (hpt : tr.getType p = some t)
    (hpne : p ≠ []) (hpu : '_' ∉ p) (htne : t ≠ [])
    (hm : assocGet pr.parsers p = some m) (hmv : assocGet m ver = some parser)
    (hv : v.isTruthy = true)
    (hinv : parser.parse (some (.str (parser.format v))) = some v)
    (hflen : (utf8Encode (parser.format v)).length < 18446744073709551616)
    (hvlen : (utf8Encode ver).length < 18446744073709551616) :
    ∃ s, encode pr tr ⟨t, ver, v⟩ = .ok s ∧
      decode pr tr s = .ok ⟨t, ver, v⟩ := by
  have hpe : p.isEmpty = false := by
    cases p with
    | nil => exact absurd rfl hpne
    | cons a l => rfl
  have hte : t.isEmpty = false := by
    cases t with
    | nil => exact absurd rfl htne
    | cons a l => rfl
  have hgp : getParser pr p ver = .ok parser := by
    unfold getParser
    rw [hm]
    dsimp only
    rw [hmv]
  refine ⟨p ++ '_' :: sanitize (base64Encode (cborEncode
    (.arr [.str (parser.format v), .str ver]))), ?_, ?_⟩
  · unfold encode
    dsimp only
    rw [ht]
    dsimp only
    rw [hpe, hv, if_neg (by simp), if_neg (by simp), hgp]
  · unfold decode
    rw [splitByFirstOccurrence_append p _ hpu]
    dsimp only
    rw [base64_pipeline _ (cborEncode_twoStrs_lt _ _)]
    rw [cborDecode_twoStrs _ _ hflen hvlen]
    dsimp only
    rw [show destructure2 (.arr [.str (parser.format v), .str ver]) =
      some (some (.str (parser.format v)), some (.str ver)) from rfl]
    dsimp only
    unfold decodeResolve
    dsimp only
    rw [hgp]
    dsimp only
    rw [hinv]
    dsimp only
    rw [hpt]
    dsimp only
    rw [hte]
    rfl

/-- C1, witness: the concrete round trip of
`GlobalId("Organization", "1.0.0", "x")`. -/
theorem c1_round_trip_amended_witness :
    ∃ s, encode orgPr orgTr ⟨"Organization".data, "1.0.0".data, .str "x".data⟩ = .ok s ∧
      decode orgPr orgTr s = .ok ⟨"Organization".data, "1.0.0".data, .str "x".data⟩ :=
  c1_round_trip_amended orgPr orgTr "Organization".data "org".data "1.0.0".data
    [("1.0.0".data, idParser)] idParser (.str "x".data)
    (by decide) (by decide) (by decide) (by decide) (by decide)
    rfl rfl (by decide) rfl (by decide) (by decide)

/-- C1, counterexample: the claim quantifies over *every* registered
`(type, version)` and every non-null accepted value, but (a) with the
registered prefix `a_b` the encode succeeds and decode then splits at
the *first* `_`, reads prefix `a`, and fails — no round trip; and (b)
the non-null value `""` is falsy, so encode itself fails with
`NullValue` and `decode ∘ encode` cannot return it; similarly (c) for
the empty type name (decoder re-check) and (d) the empty prefix (encoder
truthiness) the round trip fails although type, version and parser are
registered. -/
theorem c1_counterexample :
    (encode usPr usTr usGid = .ok usEncoded ∧
      decode usPr usTr usEncoded ≠ .ok usGid) ∧
    encode orgPr orgTr ⟨"Organization".data, "1.0.0".data, .str []⟩ =
      .error .nullValue ∧
    (∀ g : GlobalId, decode ⟨[("pfx".data, [("1".data, idParser)])]⟩
      ⟨[([], "pfx".data)], [("pfx".data, [])]⟩
      (match encode ⟨[("pfx".data, [("1".data, idParser)])]⟩
        ⟨[([], "pfx".data)], [("pfx".data, [])]⟩ ⟨[], "1".data, .str "x".data⟩ with
        | .ok s => s
        | .error _ => []) ≠ .ok g) ∧
    encode ⟨[("U".data, [("1".data, idParser)])]⟩ ⟨[("U".data, [])], [([], "U".data)]⟩
      ⟨"U".data, "1".data, .str "x".data⟩ = .error .unregisteredType := by
  refine ⟨⟨by decide, by decide⟩, by decide, ?_, by decide⟩
  intro g
  intro hcontra
  have : decode ⟨[("pfx".data, [("1".data, idParser)])]⟩
      ⟨[([], "pfx".data)], [("pfx".data, [])]⟩
      (match encode ⟨[("pfx".data, [("1".data, idParser)])]⟩
        ⟨[([], "pfx".data)], [("pfx".data, [])]⟩ ⟨[], "1".data, .str "x".data⟩ with
        | .ok s => s
        | .error _ => []) = .error .unregisteredType := by decide
  rw [this] at hcontra
  cases hcontra

end GlobalIdTs
